import Mathlib

/-!
Verification development for the theta_guard weekly options pipeline.

Each Python source function of the five core components (holiday gate,
EMA indicator engine, entry rule engine, BWB structure builder, and the
backtest aggregator) is shallow-embedded below as an executable Lean
definition over `ℚ`, `List`, `Option` and `String`, mirroring the
control flow of the source.  Python's `round(x, 4)` (round half to even
at four decimal places, idealised over the rationals) is embedded as
`round4`.  F-string interpolations inside human-readable `reason`
strings are replaced by fixed strings; no claim depends on the precise
wording of a reason, only on its non-emptiness.
-/

/-- Round half to even of a rational, the idealised semantics of
Python's builtin `round` at integer precision. -/
def roundEven (y : ℚ) : ℤ :=
  if y - ⌊y⌋ < 1/2 then ⌊y⌋
  else if 1/2 < y - ⌊y⌋ then ⌊y⌋ + 1
  else if 2 ∣ ⌊y⌋ then ⌊y⌋ else ⌊y⌋ + 1

/-- `round(x, 4)` from Python, idealised over `ℚ`. -/
def round4 (x : ℚ) : ℚ := (roundEven (x * 10000) : ℚ) / 10000

theorem roundEven_nonneg (y : ℚ) (hy : 0 ≤ y) : 0 ≤ roundEven y := by
  have h0 : (0 : ℤ) ≤ ⌊y⌋ := Int.floor_nonneg.mpr hy
  unfold roundEven
  split
  · exact h0
  · split
    · omega
    · split
      · exact h0
      · omega

theorem roundEven_intCast (n : ℤ) : roundEven (n : ℚ) = n := by
  simp [roundEven]

theorem round4_eq_of_mul_eq_intCast (q : ℚ) (n : ℤ) (h : q * 10000 = (n : ℚ)) :
    round4 q = (n : ℚ) / 10000 := by
  rw [round4, h, roundEven_intCast]

theorem round4_nonneg (x : ℚ) (hx : 0 ≤ x) : 0 ≤ round4 x := by
  unfold round4
  have h : 0 ≤ roundEven (x * 10000) :=
    roundEven_nonneg _ (by positivity)
  positivity

theorem round4_zero : round4 0 = 0 := by
  rw [round4_eq_of_mul_eq_intCast 0 0 (by norm_num)]
  norm_num

/-! ## Indicator engine (`theta_guard/indicators/ema_engine.py`) -/

/-- `SLOPE_EPSILON = 1e-9` from `ema_engine.py`. -/
def SLOPE_EPSILON : ℚ := 1 / 1000000000

/-- The EMA recurrence loop of `compute_ema_series`: starting from the
previous value `prev`, emit `(p - prev) * m + prev` for each remaining
price `p`, threading the emitted value as the next `prev`. -/
def emaRec (m : ℚ) (prev : ℚ) : List ℚ → List ℚ
  | [] => []
  | p :: ps => ((p - prev) * m + prev) :: emaRec m ((p - prev) * m + prev) ps

/-- The `multiplier = 2.0 / (period + 1)` local of `compute_ema_series`. -/
def emaMult (period : ℕ) : ℚ := 2 / ((period : ℚ) + 1)

/-- The `sma_seed = sum(prices[:period]) / period` local of `compute_ema_series`. -/
def emaSeed (prices : List ℚ) (period : ℕ) : ℚ :=
  (prices.take period).sum / (period : ℚ)

/-- The list built by the two loops of `compute_ema_series`: `period`
copies of the SMA seed followed by the EMA recurrence applied to the
remaining prices. -/
def emaList (prices : List ℚ) (period : ℕ) : List ℚ :=
  List.replicate period (emaSeed prices period)
    ++ emaRec (emaMult period) (emaSeed prices period) (prices.drop period)

/-- `compute_ema_series(prices, period)` from `ema_engine.py`.
Returns `none` when `period < 1` or fewer than `period + 2` prices are
supplied; otherwise the first `period` positions all hold the SMA seed
and the rest follow the EMA recurrence with multiplier `2/(period+1)`. -/
def compute_ema_series (prices : List ℚ) (period : ℕ) : Option (List ℚ) :=
  if period < 1 then none
  else if prices.length < period + 2 then none
  else some (emaList prices period)

/-- Result record of `compute_ema_state`. -/
structure EmaState where
  short_ema : Option ℚ
  long_ema : Option ℚ
  short_above_long : Bool
  long_ema_slope : String
  data_points_used : ℕ
  valid : Bool
  reason : String
deriving DecidableEq

/-- `compute_ema_state(prices, short_period, long_period)` from
`ema_engine.py`.  Validation failures return the invalid base state
with a non-empty reason; on success the slope of the long EMA is
classified against `SLOPE_EPSILON` and the above-flag compares the two
most recent EMA values. -/
def compute_ema_state (prices : List ℚ) (short_period : ℕ) (long_period : ℕ) : EmaState :=
  let base : EmaState :=
    { short_ema := none, long_ema := none, short_above_long := false,
      long_ema_slope := "negative", data_points_used := prices.length,
      valid := false, reason := "" }
  if short_period < 1 then
    { base with reason := "Invalid short_period. Must be positive integer." }
  else if long_period < 1 then
    { base with reason := "Invalid long_period. Must be positive integer." }
  else if long_period ≤ short_period then
    { base with reason := "short_period must be less than long_period." }
  else if prices.length < long_period + 2 then
    { base with reason := "Insufficient data for the requested long period." }
  else
    match compute_ema_series prices short_period, compute_ema_series prices long_period with
    | none, _ => { base with reason := "Failed to compute short EMA series." }
    | some _, none => { base with reason := "Failed to compute long EMA series." }
    | some ss, some ls =>
      let short_ema_current := ss.getD (ss.length - 1) 0
      let long_ema_current := ls.getD (ls.length - 1) 0
      let long_ema_previous := ls.getD (ls.length - 2) 0
      let slope_diff := long_ema_current - long_ema_previous
      let slope : String :=
        if SLOPE_EPSILON < slope_diff then "positive"
        else if slope_diff < -SLOPE_EPSILON then "negative"
        else "zero"
      { short_ema := some short_ema_current,
        long_ema := some long_ema_current,
        short_above_long := decide (long_ema_current < short_ema_current),
        long_ema_slope := slope,
        data_points_used := prices.length,
        valid := true,
        reason := "EMA state computed." }

/-! ### Index-function view of the EMA series

`emaFun m seed p k i` is the value at position `i` of the EMA series
with multiplier `m`, SMA seed `seed`, price function `p` and warm-up
length `k`.  It is proved below to agree position-wise with the list
produced by `compute_ema_series`, and the analytic facts about rising
price series are established on this view. -/

def emaFun (m seed : ℚ) (p : ℕ → ℚ) (k : ℕ) : ℕ → ℚ
  | 0 => if 0 < k then seed else (p 0 - seed) * m + seed
  | i + 1 =>
    if i + 1 < k then seed
    else (p (i + 1) - emaFun m seed p k i) * m + emaFun m seed p k i

theorem emaFun_of_lt (m seed : ℚ) (p : ℕ → ℚ) (k : ℕ) (i : ℕ) (h : i < k) :
    emaFun m seed p k i = seed := by
  cases i with
  | zero => simp [emaFun, h]
  | succ j => simp [emaFun, h]

theorem emaFun_of_ge (m seed : ℚ) (p : ℕ → ℚ) (k : ℕ) (i : ℕ)
    (h : k ≤ i + 1) :
    emaFun m seed p k (i + 1)
      = (p (i + 1) - emaFun m seed p k i) * m + emaFun m seed p k i := by
  simp [emaFun, Nat.not_lt.mpr h]

theorem emaRec_length (m prev : ℚ) (qs : List ℚ) :
    (emaRec m prev qs).length = qs.length := by
  induction qs generalizing prev with
  | nil => rfl
  | cons q qs ih => simp [emaRec, ih]

theorem emaRec_getD_zero (m prev : ℚ) (qs : List ℚ) (h : qs ≠ []) :
    (emaRec m prev qs).getD 0 0 = (qs.getD 0 0 - prev) * m + prev := by
  cases qs with
  | nil => exact absurd rfl h
  | cons q qs => rfl

theorem emaRec_getD_succ (m : ℚ) (qs : List ℚ) (prev : ℚ) (j : ℕ)
    (h : j + 1 < qs.length) :
    (emaRec m prev qs).getD (j + 1) 0
      = (qs.getD (j + 1) 0 - (emaRec m prev qs).getD j 0) * m
        + (emaRec m prev qs).getD j 0 := by
  induction qs generalizing prev j with
  | nil => simp at h
  | cons q qs ih =>
    cases qs with
    | nil => simp at h
    | cons q' qs' =>
      cases j with
      | zero => rfl
      | succ j' =>
        have h' : j' + 1 < (q' :: qs').length := by
          simpa using Nat.lt_of_succ_lt_succ h
        simpa [emaRec] using ih ((q - prev) * m + prev) j' h'

theorem compute_ema_series_eq_some (prices : List ℚ) (k : ℕ)
    (h1 : 1 ≤ k) (h2 : k + 2 ≤ prices.length) :
    compute_ema_series prices k = some (emaList prices k) := by
  simp [compute_ema_series, Nat.not_lt.mpr h1, Nat.not_lt.mpr h2]

theorem compute_ema_series_eq_none (prices : List ℚ) (k : ℕ)
    (h : prices.length < k + 2) :
    compute_ema_series prices k = none := by
  by_cases hk : k < 1 <;> simp [compute_ema_series, hk, h]

theorem emaList_length (prices : List ℚ) (k : ℕ) (h : k ≤ prices.length) :
    (emaList prices k).length = prices.length := by
  simp only [emaList, List.length_append, List.length_replicate, emaRec_length,
    List.length_drop]
  omega

theorem emaList_getD_lt (prices : List ℚ) (k i : ℕ) (h : i < k) :
    (emaList prices k).getD i 0 = emaSeed prices k := by
  rw [emaList, List.getD_append _ _ _ _ (by simpa using h)]
  simp [List.getD_eq_getElem?_getD, List.getElem?_replicate, h]

theorem emaList_getD_ge (prices : List ℚ) (k i : ℕ) (h : k ≤ i) :
    (emaList prices k).getD i 0
      = (emaRec (emaMult k) (emaSeed prices k) (prices.drop k)).getD (i - k) 0 := by
  rw [emaList, List.getD_append_right _ _ _ _ (by simpa using h)]
  simp

theorem emaList_recur (prices : List ℚ) (k i : ℕ)
    (h1 : 1 ≤ k) (hk : k ≤ i) (hi : i < prices.length) :
    (emaList prices k).getD i 0
      = (prices.getD i 0 - (emaList prices k).getD (i - 1) 0) * emaMult k
        + (emaList prices k).getD (i - 1) 0 := by
  obtain ⟨j, rfl⟩ := Nat.exists_eq_add_of_le hk
  have hlen : (prices.drop k).length = prices.length - k := List.length_drop k prices
  have hdropD : ∀ t, (prices.drop k).getD t 0 = prices.getD (k + t) 0 := by
    intro t
    simp [List.getD_eq_getElem?_getD, List.getElem?_drop]
  cases j with
  | zero =>
    have hne : prices.drop k ≠ [] := by
      intro hcon
      rw [hcon] at hlen
      simp at hlen
      omega
    simp only [Nat.add_zero]
    rw [emaList_getD_ge prices k k le_rfl]
    simp only [Nat.sub_self]
    rw [emaRec_getD_zero _ _ _ hne, hdropD 0,
      emaList_getD_lt prices k (k - 1) (by omega)]
    simp
  | succ j' =>
    rw [emaList_getD_ge prices k (k + (j' + 1)) (by omega)]
    have hsub : k + (j' + 1) - k = j' + 1 := by omega
    rw [hsub]
    rw [emaRec_getD_succ _ _ _ j' (by omega)]
    rw [hdropD (j' + 1)]
    have h1' : k + (j' + 1) - 1 = k + j' := by omega
    rw [h1', emaList_getD_ge prices k (k + j') (by omega)]
    have h2' : k + j' - k = j' := by omega
    rw [h2']

theorem emaList_getD_eq_emaFun (prices : List ℚ) (k : ℕ) (h1 : 1 ≤ k) :
    ∀ i, i < prices.length →
      (emaList prices k).getD i 0
        = emaFun (emaMult k) (emaSeed prices k) (fun j => prices.getD j 0) k i := by
  intro i
  induction i using Nat.strong_induction_on with
  | _ i ih =>
    intro hi
    by_cases hik : i < k
    · rw [emaList_getD_lt _ _ _ hik, emaFun_of_lt _ _ _ _ _ hik]
    · push_neg at hik
      obtain ⟨i', rfl⟩ : ∃ i', i = i' + 1 := ⟨i - 1, by omega⟩
      rw [emaFun_of_ge _ _ _ _ _ (by omega), emaList_recur _ _ _ h1 hik hi]
      have hs : i' + 1 - 1 = i' := rfl
      rw [hs, ih i' (by omega) (by omega)]

/-! ### Rising price series: analytic facts about `emaFun` -/

theorem sum_range_lt_mul (p : ℕ → ℚ) (n j i : ℕ)
    (hp : ∀ a b, a < b → b < n → p a < p b)
    (hj : 1 ≤ j) (hji : j ≤ i) (hi : i < n) :
    (∑ t ∈ Finset.range j, p t) < (j : ℚ) * p i := by
  have h := Finset.sum_lt_sum_of_nonempty
    (s := Finset.range j) (f := p) (g := fun _ => p i)
    (by simp; omega)
    (by
      intro t ht
      simp only [Finset.mem_range] at ht
      exact hp t i (by omega) hi)
  simpa [mul_comm] using h

theorem sum_range_le_mul (p : ℕ → ℚ) (n j i : ℕ)
    (hp : ∀ a b, a < b → b < n → p a < p b)
    (hji : j ≤ i + 1) (hi : i < n) :
    (∑ t ∈ Finset.range j, p t) ≤ (j : ℚ) * p i := by
  rcases Nat.eq_zero_or_pos j with hj0 | hj1
  · simp [hj0]
  rcases Nat.lt_or_ge j (i + 1) with hlt | hge
  · exact le_of_lt (sum_range_lt_mul p n j i hp hj1 (by omega) hi)
  · have hji' : j = i + 1 := by omega
    subst hji'
    have h := Finset.sum_le_sum
      (s := Finset.range (i + 1)) (f := p) (g := fun _ => p i)
      (by
        intro t ht
        simp only [Finset.mem_range] at ht
        rcases Nat.lt_or_ge t i with h' | h'
        · exact le_of_lt (hp t i h' hi)
        · have : t = i := by omega
          simp [this])
    simpa [mul_comm] using h

/-- On a strictly rising window the EMA value never exceeds the current
price, as long as the seed does not exceed the price at the end of the
warm-up. -/
theorem emaFun_le_price (m seed : ℚ) (p : ℕ → ℚ) (k n : ℕ)
    (hm1 : m ≤ 1) (hk : 1 ≤ k)
    (hp : ∀ a b, a < b → b < n → p a < p b)
    (hseed : seed ≤ p (k - 1)) :
    ∀ i, k - 1 ≤ i → i < n → emaFun m seed p k i ≤ p i := by
  intro i hki
  induction i, hki using Nat.le_induction with
  | base =>
    intro hn
    rw [emaFun_of_lt _ _ _ _ _ (by omega)]
    exact hseed
  | succ i hki ih =>
    intro hn
    have hlt : p i < p (i + 1) := hp i (i + 1) (by omega) hn
    have hE : emaFun m seed p k i ≤ p i := ih (by omega)
    rw [emaFun_of_ge _ _ _ _ _ (by omega)]
    have hpos : 0 ≤ p (i + 1) - emaFun m seed p k i := by linarith
    have hmul : (p (i + 1) - emaFun m seed p k i) * m
        ≤ p (i + 1) - emaFun m seed p k i :=
      mul_le_of_le_one_right hpos hm1
    linarith

/-- With multiplier `1/2` (period 3) the EMA of a strictly rising window
stays at or above the running arithmetic mean of all prices seen so
far. -/
theorem emaFun_half_ge_avg (seed : ℚ) (p : ℕ → ℚ) (n : ℕ)
    (hp : ∀ a b, a < b → b < n → p a < p b)
    (hseed : seed = (∑ t ∈ Finset.range 3, p t) / 3) :
    ∀ i, 2 ≤ i → i < n →
      (∑ t ∈ Finset.range (i + 1), p t) ≤ ((i : ℚ) + 1) * emaFun (1/2) seed p 3 i := by
  intro i hi2
  induction i, hi2 using Nat.le_induction with
  | base =>
    intro hn
    rw [emaFun_of_lt _ _ _ _ _ (by omega), hseed]
    have h3 : ((2 : ℚ) + 1) * ((∑ t ∈ Finset.range 3, p t) / 3)
        = ∑ t ∈ Finset.range 3, p t := by ring
    push_cast
    rw [h3]
  | succ i hi2 ih =>
    intro hn
    have hin : i < n := by omega
    have hih := ih hin
    have hseed_le : seed ≤ p 2 := by
      rw [hseed, div_le_iff₀ (by norm_num : (0:ℚ) < 3)]
      have := sum_range_le_mul p n 3 2 hp (by omega) (by omega)
      push_cast at this
      linarith
    have hEp : emaFun (1/2) seed p 3 i ≤ p i :=
      emaFun_le_price (1/2) seed p 3 n (by norm_num) (by norm_num) hp
        (by simpa using hseed_le) i (by omega) hin
    have hpp : p i < p (i + 1) := hp i (i + 1) (by omega) hn
    rw [emaFun_of_ge _ _ _ _ _ (by omega), Finset.sum_range_succ]
    have hcast : (0 : ℚ) ≤ (i : ℚ) := by positivity
    have hkey : 0 ≤ (i : ℚ) * (p (i + 1) - emaFun (1/2) seed p 3 i) :=
      mul_nonneg hcast (by linarith)
    push_cast
    ring_nf
    ring_nf at hih hkey
    nlinarith [hih, hkey]

/-- From position 8 onwards, on a strictly rising window the 3-period
EMA is strictly above the 8-period EMA. -/
theorem emaFun_short_above_long (p : ℕ → ℚ) (n : ℕ)
    (hp : ∀ a b, a < b → b < n → p a < p b) :
    ∀ i, 8 ≤ i → i < n →
      emaFun (2/9) ((∑ t ∈ Finset.range 8, p t) / 8) p 8 i
        < emaFun (1/2) ((∑ t ∈ Finset.range 3, p t) / 3) p 3 i := by
  set sa : ℚ := (∑ t ∈ Finset.range 3, p t) / 3 with hsa
  set sb : ℚ := (∑ t ∈ Finset.range 8, p t) / 8 with hsb
  have hsb_le : ∀ j, 7 ≤ j → j < n → sb ≤ p j := by
    intro j hj7 hjn
    rw [hsb, div_le_iff₀ (by norm_num : (0:ℚ) < 8)]
    have := sum_range_le_mul p n 8 j hp (by omega) hjn
    push_cast at this
    linarith
  have hlong_le : ∀ j, 7 ≤ j → j < n → emaFun (2/9) sb p 8 j ≤ p j := by
    intro j hj7 hjn
    exact emaFun_le_price (2/9) sb p 8 n (by norm_num) (by norm_num) hp
      (hsb_le 7 le_rfl (by omega)) j (by omega) hjn
  intro i hi8
  induction i, hi8 using Nat.le_induction with
  | base =>
    intro hn
    have h7n : 7 < n := by omega
    have havg := emaFun_half_ge_avg sa p n hp hsa 7 (by omega) h7n
    have hs7 : sb ≤ emaFun (1/2) sa p 3 7 := by
      rw [hsb, div_le_iff₀ (by norm_num : (0:ℚ) < 8)]
      push_cast at havg
      have h8 : (∑ t ∈ Finset.range 8, p t) = ∑ t ∈ Finset.range (7+1), p t := by norm_num
      rw [h8]
      linarith
    have hp8 : sb < p 8 := by
      rw [hsb, div_lt_iff₀ (by norm_num : (0:ℚ) < 8)]
      have := sum_range_lt_mul p n 8 8 hp (by omega) (by omega) hn
      push_cast at this
      linarith
    rw [show (8 : ℕ) = 7 + 1 from rfl,
      emaFun_of_ge (2/9) sb p 8 7 (by omega),
      emaFun_of_ge (1/2) sa p 3 7 (by omega),
      emaFun_of_lt (2/9) sb p 8 7 (by omega)]
    have hs7p : emaFun (1/2) sa p 3 7 ≤ p 7 := by
      have hseed_le : sa ≤ p 2 := by
        rw [hsa, div_le_iff₀ (by norm_num : (0:ℚ) < 3)]
        have := sum_range_le_mul p n 3 2 hp (by omega) (by omega)
        push_cast at this
        linarith
      exact emaFun_le_price (1/2) sa p 3 n (by norm_num) (by norm_num) hp
        (by simpa using hseed_le) 7 (by omega) h7n
    have hp78 : p 7 < p 8 := hp 7 8 (by omega) hn
    linarith
  | succ i hi8 ih =>
    intro hn
    have hin : i < n := by omega
    have hli : emaFun (2/9) sb p 8 i ≤ p i := hlong_le i (by omega) hin
    have hpp : p i < p (i + 1) := hp i (i + 1) (by omega) hn
    have hlt := ih hin
    rw [emaFun_of_ge (2/9) sb p 8 i (by omega),
      emaFun_of_ge (1/2) sa p 3 i (by omega)]
    linarith

theorem sum_take_eq_sum_range (l : List ℚ) (k : ℕ) (hk : k ≤ l.length) :
    (l.take k).sum = ∑ t ∈ Finset.range k, l.getD t 0 := by
  induction k with
  | zero => simp
  | succ k ih =>
    rw [Finset.sum_range_succ, ← ih (by omega), List.take_succ]
    have hsome : l[k]? = some (l.getD k 0) := by
      rw [List.getD_eq_getElem?_getD, List.getElem?_eq_getElem (by omega)]
      rfl
    rw [hsome, List.sum_append]
    simp

theorem compute_ema_state_success (prices : List ℚ) (sp lp : ℕ)
    (h1 : 1 ≤ sp) (h3 : sp < lp) (h4 : lp + 2 ≤ prices.length) :
    compute_ema_state prices sp lp =
      { short_ema := some ((emaList prices sp).getD ((emaList prices sp).length - 1) 0),
        long_ema := some ((emaList prices lp).getD ((emaList prices lp).length - 1) 0),
        short_above_long :=
          decide ((emaList prices lp).getD ((emaList prices lp).length - 1) 0
            < (emaList prices sp).getD ((emaList prices sp).length - 1) 0),
        long_ema_slope :=
          if SLOPE_EPSILON < (emaList prices lp).getD ((emaList prices lp).length - 1) 0
              - (emaList prices lp).getD ((emaList prices lp).length - 2) 0 then "positive"
          else if (emaList prices lp).getD ((emaList prices lp).length - 1) 0
              - (emaList prices lp).getD ((emaList prices lp).length - 2) 0
              < -SLOPE_EPSILON then "negative"
          else "zero",
        data_points_used := prices.length,
        valid := true,
        reason := "EMA state computed." } := by
  have hs := compute_ema_series_eq_some prices sp h1 (by omega)
  have hl := compute_ema_series_eq_some prices lp (by omega) h4
  rw [compute_ema_state]
  rw [if_neg (by omega), if_neg (by omega), if_neg (by omega), if_neg (by omega)]
  rw [hs, hl]

/-- Claim C2 (amended): for every price series of length at least 10
with strictly increasing values, `compute_ema_state` with the default
periods 3 and 8 reports `valid = true`, `short_above_long = true`, and
a long-EMA slope that is "positive" or "zero" (never "negative"); the
slope need not be "positive" because the last long-EMA increment can
fall below `SLOPE_EPSILON`. -/
theorem C2_rising_state (prices : List ℚ)
    (h10 : 10 ≤ prices.length) (hchain : List.Chain' (· < ·) prices) :
    (compute_ema_state prices 3 8).valid = true
    ∧ (compute_ema_state prices 3 8).short_above_long = true
    ∧ ((compute_ema_state prices 3 8).long_ema_slope = "positive"
       ∨ (compute_ema_state prices 3 8).long_ema_slope = "zero") := by
  obtain ⟨d, hd⟩ : ∃ d, prices.length = d + 10 := ⟨prices.length - 10, by omega⟩
  have hpairs : List.Pairwise (· < ·) prices := List.chain'_iff_pairwise.mp hchain
  have hp : ∀ a b, a < b → b < prices.length →
      prices.getD a 0 < prices.getD b 0 := by
    intro a b hab hbn
    have ha : a < prices.length := lt_trans hab hbn
    rw [List.getD_eq_getElem _ _ ha, List.getD_eq_getElem _ _ hbn]
    exact List.pairwise_iff_get.mp hpairs ⟨a, ha⟩ ⟨b, hbn⟩ hab
  have hseed3 : emaSeed prices 3
      = (∑ t ∈ Finset.range 3, prices.getD t 0) / 3 := by
    rw [emaSeed, sum_take_eq_sum_range _ _ (by omega)]
    norm_num
  have hseed8 : emaSeed prices 8
      = (∑ t ∈ Finset.range 8, prices.getD t 0) / 8 := by
    rw [emaSeed, sum_take_eq_sum_range _ _ (by omega)]
    norm_num
  have hm3 : emaMult 3 = 1/2 := by norm_num [emaMult]
  have hm8 : emaMult 8 = 2/9 := by norm_num [emaMult]
  have hlen3 : (emaList prices 3).length = prices.length :=
    emaList_length _ _ (by omega)
  have hlen8 : (emaList prices 8).length = prices.length :=
    emaList_length _ _ (by omega)
  have hbr3 : (emaList prices 3).getD (d + 9) 0
      = emaFun (1/2) ((∑ t ∈ Finset.range 3, prices.getD t 0) / 3)
          (fun j => prices.getD j 0) 3 (d + 9) := by
    rw [emaList_getD_eq_emaFun prices 3 (by norm_num) (d + 9) (by omega), hm3, hseed3]
  have hbr8last : (emaList prices 8).getD (d + 9) 0
      = emaFun (2/9) ((∑ t ∈ Finset.range 8, prices.getD t 0) / 8)
          (fun j => prices.getD j 0) 8 (d + 9) := by
    rw [emaList_getD_eq_emaFun prices 8 (by norm_num) (d + 9) (by omega), hm8, hseed8]
  have hbr8prev : (emaList prices 8).getD (d + 8) 0
      = emaFun (2/9) ((∑ t ∈ Finset.range 8, prices.getD t 0) / 8)
          (fun j => prices.getD j 0) 8 (d + 8) := by
    rw [emaList_getD_eq_emaFun prices 8 (by norm_num) (d + 8) (by omega), hm8, hseed8]
  have habove := emaFun_short_above_long (fun j => prices.getD j 0) prices.length
    hp (d + 9) (by omega) (by omega)
  have hseedcond : (∑ t ∈ Finset.range 8, prices.getD t 0) / 8
      ≤ prices.getD 7 0 := by
    rw [div_le_iff₀ (by norm_num : (0:ℚ) < 8)]
    have := sum_range_le_mul (fun j => prices.getD j 0) prices.length 8 7 hp
      (by omega) (by omega)
    push_cast at this
    linarith
  have hprevle : emaFun (2/9) ((∑ t ∈ Finset.range 8, prices.getD t 0) / 8)
      (fun j => prices.getD j 0) 8 (d + 8) ≤ prices.getD (d + 8) 0 :=
    emaFun_le_price (2/9) _ (fun j => prices.getD j 0) 8 prices.length
      (by norm_num) (by norm_num) hp (by simpa using hseedcond) (d + 8)
      (by omega) (by omega)
  have hrec := emaFun_of_ge (2/9)
    ((∑ t ∈ Finset.range 8, prices.getD t 0) / 8)
    (fun j => prices.getD j 0) 8 (d + 8) (by omega)
  have hstep : prices.getD (d + 8) 0 < prices.getD (d + 9) 0 :=
    hp (d + 8) (d + 9) (by omega) (by omega)
  have hdiffpos : 0 < emaFun (2/9) ((∑ t ∈ Finset.range 8, prices.getD t 0) / 8)
        (fun j => prices.getD j 0) 8 (d + 9)
      - emaFun (2/9) ((∑ t ∈ Finset.range 8, prices.getD t 0) / 8)
        (fun j => prices.getD j 0) 8 (d + 8) := by
    have h89 : d + 8 + 1 = d + 9 := rfl
    rw [← h89, hrec]
    have : (fun j => prices.getD j 0) (d + 8 + 1) = prices.getD (d + 9) 0 := rfl
    linarith [hprevle, hstep]
  rw [compute_ema_state_success prices 3 8 (by norm_num) (by norm_num) (by omega)]
  rw [hlen3, hlen8, hd]
  have e1 : d + 10 - 1 = d + 9 := by omega
  have e2 : d + 10 - 2 = d + 8 := by omega
  rw [e1, e2, hbr3, hbr8last, hbr8prev]
  refine ⟨rfl, ?_, ?_⟩
  · simp only [EmaState.short_above_long, decide_eq_true_eq]
    exact habove
  · simp only [EmaState.long_ema_slope]
    by_cases hcase : SLOPE_EPSILON
        < emaFun (2/9) ((∑ t ∈ Finset.range 8, prices.getD t 0) / 8)
            (fun j => prices.getD j 0) 8 (d + 9)
          - emaFun (2/9) ((∑ t ∈ Finset.range 8, prices.getD t 0) / 8)
            (fun j => prices.getD j 0) 8 (d + 8)
    · left
      rw [if_pos hcase]
    · right
      rw [if_neg hcase, if_neg (by
        have hε : (0:ℚ) < SLOPE_EPSILON := by norm_num [SLOPE_EPSILON]
        push_neg
        linarith)]

/-- A strictly increasing 10-point price series whose increments are far
below `SLOPE_EPSILON`. -/
def c2CexPrices : List ℚ :=
  [1, 1 + 1/1000000000000, 1 + 2/1000000000000, 1 + 3/1000000000000,
   1 + 4/1000000000000, 1 + 5/1000000000000, 1 + 6/1000000000000,
   1 + 7/1000000000000, 1 + 8/1000000000000, 1 + 9/1000000000000]

/-- Claim C2 as stated is false: this strictly increasing series of
length 10 yields a long-EMA slope classified "zero", not "positive",
because its final long-EMA increment is below `SLOPE_EPSILON`. -/
theorem C2_counterexample :
    c2CexPrices.length = 10
    ∧ List.Chain' (· < ·) c2CexPrices
    ∧ (compute_ema_state c2CexPrices 3 8).long_ema_slope = "zero"
    ∧ (compute_ema_state c2CexPrices 3 8).long_ema_slope ≠ "positive" := by
  have hslope : (compute_ema_state c2CexPrices 3 8).long_ema_slope = "zero" := by
    rw [compute_ema_state_success c2CexPrices 3 8 (by norm_num) (by norm_num)
      (by norm_num [c2CexPrices])]
    norm_num [c2CexPrices, emaList, emaSeed, emaMult, emaRec, SLOPE_EPSILON,
      List.getD_eq_getElem?_getD, List.replicate_succ, List.getElem_cons_succ,
      List.getElem_cons_zero]
  refine ⟨by norm_num [c2CexPrices], ?_, hslope, by rw [hslope]; decide⟩
  norm_num [c2CexPrices, List.chain'_cons]

/-- Witness for C2: the amended statement applied to the concrete
strictly increasing series `[1, …, 10]`. -/
theorem C2_witness :
    (compute_ema_state [1,2,3,4,5,6,7,8,9,10] 3 8).valid = true
    ∧ (compute_ema_state [1,2,3,4,5,6,7,8,9,10] 3 8).short_above_long = true
    ∧ ((compute_ema_state [1,2,3,4,5,6,7,8,9,10] 3 8).long_ema_slope = "positive"
       ∨ (compute_ema_state [1,2,3,4,5,6,7,8,9,10] 3 8).long_ema_slope = "zero") :=
  C2_rising_state [1,2,3,4,5,6,7,8,9,10] (by norm_num)
    (by norm_num [List.chain'_cons])

/-- Claim C3: for a positive period, `compute_ema_series` on at least
`period + 2` prices returns a list of the same length whose first
`period` positions equal the arithmetic mean of the first `period`
prices and whose later positions follow the EMA recurrence with
multiplier `2 / (period + 1)`; on fewer than `period + 2` prices it
returns `none`. -/
theorem C3_ema_series_spec (prices : List ℚ) (period : ℕ) (h1 : 1 ≤ period) :
    (period + 2 ≤ prices.length →
      ∃ l, compute_ema_series prices period = some l
        ∧ l.length = prices.length
        ∧ (∀ i, i < period → l.getD i 0 = (prices.take period).sum / (period : ℚ))
        ∧ (∀ i, period ≤ i → i < prices.length →
            l.getD i 0
              = (prices.getD i 0 - l.getD (i - 1) 0) * (2 / ((period : ℚ) + 1))
                + l.getD (i - 1) 0))
    ∧ (prices.length < period + 2 → compute_ema_series prices period = none) := by
  constructor
  · intro h2
    refine ⟨emaList prices period, compute_ema_series_eq_some prices period h1 h2,
      emaList_length prices period (by omega), ?_, ?_⟩
    · intro i hi
      rw [emaList_getD_lt prices period i hi]
      rfl
    · intro i hpi hin
      rw [emaList_recur prices period i h1 hpi hin]
      rfl
  · intro h
    exact compute_ema_series_eq_none prices period h

/-- Witness for C3: the statement applied at prices `[1,2,3,4,5,6]`
and period `3`. -/
theorem C3_witness :
    ((3 : ℕ) + 2 ≤ ([1,2,3,4,5,6] : List ℚ).length →
      ∃ l, compute_ema_series [1,2,3,4,5,6] 3 = some l
        ∧ l.length = ([1,2,3,4,5,6] : List ℚ).length
        ∧ (∀ i, i < 3 →
            l.getD i 0 = (([1,2,3,4,5,6] : List ℚ).take 3).sum / ((3 : ℕ) : ℚ))
        ∧ (∀ i, 3 ≤ i → i < ([1,2,3,4,5,6] : List ℚ).length →
            l.getD i 0
              = (([1,2,3,4,5,6] : List ℚ).getD i 0 - l.getD (i - 1) 0)
                  * (2 / (((3 : ℕ) : ℚ) + 1)) + l.getD (i - 1) 0))
    ∧ (([1,2,3,4,5,6] : List ℚ).length < 3 + 2 →
        compute_ema_series [1,2,3,4,5,6] 3 = none) :=
  C3_ema_series_spec [1,2,3,4,5,6] 3 (by norm_num)

/-! ## Entry rule engine (`theta_guard/signals/entry_evaluator.py`) -/

/-- Output of `is_trade_week` as read by the entry evaluator. -/
structure HolidayResult where
  is_trade_week : Bool
  monday_trading_day : Bool
  friday_trading_day : Bool
  reason : String
deriving DecidableEq

/-- Caller-supplied entry context. -/
structure EntryContext where
  entry_day : String
  entry_time_valid : Bool
deriving DecidableEq

/-- Result record of `evaluate_entry`. -/
structure EntryDecision where
  decision : String
  hard_blocks_triggered : List String
  signal_failures : List String
  reasons : List String
deriving DecidableEq

/-- `_evaluate_hard_blocks` from `entry_evaluator.py`.  A `none` input
plays the role of a missing or malformed (non-dict) Python value.
Returns the pair (triggered tags, reasons). -/
def evaluateHardBlocks (holiday_result : Option HolidayResult)
    (ema_state : Option EmaState) (entry_context : Option EntryContext) :
    List String × List String :=
  let h : List String × List String :=
    match holiday_result with
    | none => (["holiday_data_invalid"],
        ["HARD BLOCK: Holiday result is missing or malformed."])
    | some hr =>
      if hr.is_trade_week then ([], [])
      else (["holiday_block"], ["HARD BLOCK: " ++ hr.reason])
  let c : List String × List String :=
    match entry_context with
    | none => (["entry_context_invalid"],
        ["HARD BLOCK: Entry context is missing or malformed."])
    | some ec =>
      if ec.entry_time_valid then ([], [])
      else (["entry_time_invalid"],
        ["HARD BLOCK: Entry time is outside the valid window."])
  let e : List String × List String :=
    match ema_state with
    | none => (["ema_data_invalid"],
        ["HARD BLOCK: EMA state is missing or malformed."])
    | some es =>
      if es.valid then ([], [])
      else (["ema_invalid"], ["HARD BLOCK: " ++ es.reason])
  (h.1 ++ c.1 ++ e.1, h.2 ++ c.2 ++ e.2)

/-- `_evaluate_signal_conditions` from `entry_evaluator.py`. -/
def evaluateSignalConditions (es : EmaState) : List String × List String :=
  let s1 : List String × List String :=
    if es.short_above_long then ([], [])
    else (["short_ema_not_above_long"],
      ["SIGNAL FAIL: 3-period EMA is not above 8-period EMA."])
  let s2 : List String × List String :=
    if es.long_ema_slope = "negative" then
      (["long_ema_slope_negative"], ["SIGNAL FAIL: 8-period EMA slope is negative."])
    else ([], [])
  (s1.1 ++ s2.1, s1.2 ++ s2.2)

/-- `evaluate_entry` from `entry_evaluator.py`: Tier-1 hard blocks are
collected first and, when any triggers, Tier 2 is skipped; otherwise
the Tier-2 signal conditions decide.  The impossible branch (`none`
EMA state surviving Tier 1) mirrors the `except` handler of the source,
which converts the attribute error into the synthetic hard block
`evaluation_error`. -/
def evaluate_entry (holiday_result : Option HolidayResult)
    (ema_state : Option EmaState) (entry_context : Option EntryContext) :
    EntryDecision :=
  let hb := evaluateHardBlocks holiday_result ema_state entry_context
  if hb.1 ≠ [] then
    { decision := "NO TRADE", hard_blocks_triggered := hb.1,
      signal_failures := [], reasons := hb.2 }
  else
    match ema_state with
    | none =>
      { decision := "NO TRADE",
        hard_blocks_triggered := hb.1 ++ ["evaluation_error"],
        signal_failures := [],
        reasons := hb.2 ++ ["Unexpected error during evaluation. Defaulting to NO TRADE."] }
    | some es =>
      let sf := evaluateSignalConditions es
      if sf.1 ≠ [] then
        { decision := "NO TRADE", hard_blocks_triggered := hb.1,
          signal_failures := sf.1, reasons := hb.2 ++ sf.2 }
      else
        { decision := "TRADE ALLOWED", hard_blocks_triggered := hb.1,
          signal_failures := sf.1,
          reasons := hb.2 ++ sf.2 ++ ["All hard blocks cleared and signal conditions met."] }

/-- Claim C4: `evaluate_entry` returns TRADE ALLOWED only when both the
hard-block list and the signal-failure list are empty, and whenever any
hard block triggers, Tier 2 is skipped (empty signal failures) and the
decision is NO TRADE. -/
theorem C4_decision_invariant (holiday_result : Option HolidayResult)
    (ema_state : Option EmaState) (entry_context : Option EntryContext) :
    ((evaluate_entry holiday_result ema_state entry_context).decision = "TRADE ALLOWED" →
      (evaluate_entry holiday_result ema_state entry_context).hard_blocks_triggered = []
      ∧ (evaluate_entry holiday_result ema_state entry_context).signal_failures = [])
    ∧ ((evaluate_entry holiday_result ema_state entry_context).hard_blocks_triggered ≠ [] →
      (evaluate_entry holiday_result ema_state entry_context).signal_failures = []
      ∧ (evaluate_entry holiday_result ema_state entry_context).decision = "NO TRADE") := by
  unfold evaluate_entry
  set hb := evaluateHardBlocks holiday_result ema_state entry_context with hhb
  by_cases h1 : hb.1 ≠ []
  · rw [if_pos h1]
    refine ⟨?_, ?_⟩
    · intro hdec
      simp at hdec
    · intro _
      exact ⟨rfl, rfl⟩
  · rw [if_neg h1]
    push_neg at h1
    cases ema_state with
    | none =>
      refine ⟨?_, ?_⟩
      · intro hdec
        simp at hdec
      · intro _
        exact ⟨rfl, rfl⟩
    | some es =>
      dsimp only
      set sf := evaluateSignalConditions es with hsf
      by_cases h2 : sf.1 ≠ []
      · rw [if_pos h2]
        refine ⟨?_, ?_⟩
        · intro hdec
          simp at hdec
        · intro hcon
          exact absurd h1 hcon
      · rw [if_neg h2]
        push_neg at h2
        refine ⟨?_, ?_⟩
        · intro _
          exact ⟨h1, h2⟩
        · intro hcon
          exact absurd h1 hcon

/-- Witness for C4: a fully passing input yields TRADE ALLOWED with
both lists empty. -/
theorem C4_witness :
    (evaluate_entry
        (some ⟨true, true, true, "Trade week allowed."⟩)
        (some ⟨some 1, some 0, true, "positive", 10, true, "EMA state computed."⟩)
        (some ⟨"Monday", true⟩)).hard_blocks_triggered = []
    ∧ (evaluate_entry
        (some ⟨true, true, true, "Trade week allowed."⟩)
        (some ⟨some 1, some 0, true, "positive", 10, true, "EMA state computed."⟩)
        (some ⟨"Monday", true⟩)).signal_failures = [] :=
  (C4_decision_invariant _ _ _).1 (by rfl)

/-! ## Structure builder (`theta_guard/strategies/bwb_builder.py`) -/

/-- `TARGET_DELTA_PUT_SHORT = 0.55` from `bwb_builder.py`. -/
def TARGET_DELTA_PUT_SHORT : ℚ := 55 / 100

/-- `TARGET_DELTA_CALL_SHORT = 0.45` from `bwb_builder.py`. -/
def TARGET_DELTA_CALL_SHORT : ℚ := 45 / 100

/-- One option-chain record; `delta = none` plays the role of a missing
delta. -/
structure OptionRec where
  type : String
  strike : ℚ
  delta : Option ℚ
  bid : ℚ
  ask : ℚ
deriving DecidableEq

/-- One leg of a built structure (`_make_leg`). -/
structure Leg where
  action : String
  quantity : ℕ
  type : String
  strike : ℚ
  price : ℚ
  delta : Option ℚ
deriving DecidableEq

/-- Result record of `build_bwb_structure`. -/
structure BWBResult where
  structure_type : String
  legs : List Leg
  net_premium : ℚ
  max_loss : Option ℚ
  valid : Bool
  reason : String
deriving DecidableEq

/-- `_filter_options` from `bwb_builder.py`. -/
def filterOptions (option_chain : List OptionRec) (option_type : String) :
    List OptionRec :=
  option_chain.filter (fun o => o.type == option_type)

/-- The strike order used by `sorted(..., key=lambda x: x["strike"])`. -/
def strikeLE (a b : OptionRec) : Prop := a.strike ≤ b.strike

instance : DecidableRel strikeLE := fun a b =>
  inferInstanceAs (Decidable (a.strike ≤ b.strike))

instance : IsTotal OptionRec strikeLE :=
  ⟨fun a b => le_total a.strike b.strike⟩

instance : IsTrans OptionRec strikeLE :=
  ⟨fun _ _ _ hab hbc => le_trans hab hbc⟩

/-- Python's stable `sorted` by strike, embedded as insertion sort. -/
def sortByStrike (l : List OptionRec) : List OptionRec :=
  List.insertionSort strikeLE l

/-- The loop body of `_find_closest_delta`: the accumulator holds the
current closest record together with its distance (`None` plays the
role of the initial `min_distance = inf` state). -/
def fcdGo (target : ℚ) : List OptionRec → Option (OptionRec × ℚ) →
    Option (OptionRec × ℚ)
  | [], acc => acc
  | o :: rest, acc =>
    match o.delta with
    | none => fcdGo target rest acc
    | some d =>
      match acc with
      | none => fcdGo target rest (some (o, |(|d|) - target|))
      | some (c, md) =>
        if |(|d|) - target| < md then fcdGo target rest (some (o, |(|d|) - target|))
        else fcdGo target rest (some (c, md))

/-- `_find_closest_delta` from `bwb_builder.py`. -/
def findClosestDelta (options : List OptionRec) (target : ℚ) :
    Option OptionRec :=
  (fcdGo target options none).map Prod.fst

/-- `_find_option_by_strike` from `bwb_builder.py`. -/
def findOptionByStrike (options : List OptionRec) (strike : ℚ) :
    Option OptionRec :=
  options.find? (fun o => decide (o.strike = strike))

/-- `_mid_price` from `bwb_builder.py`. -/
def midPrice (o : OptionRec) : ℚ := (o.bid + o.ask) / 2

/-- `_make_leg` from `bwb_builder.py`. -/
def mkLeg (action : String) (quantity : ℕ) (option_type : String)
    (strike : ℚ) (price : ℚ) (delta : Option ℚ) : Leg :=
  { action := action, quantity := quantity, type := option_type,
    strike := strike, price := round4 price, delta := delta.map round4 }

/-- `_build_put_credit_bwb` from `bwb_builder.py`: sell 2 puts at the
strike whose `|delta|` is closest to 0.55, buy 1 put one strike above
and 1 put two strikes below. -/
def buildPutCreditBWB (option_chain : List OptionRec) (result : BWBResult) :
    BWBResult :=
  let puts := filterOptions option_chain "put"
  if puts = [] then { result with reason := "No put options found in chain." }
  else
    let puts_sorted := sortByStrike puts
    let strikes := puts_sorted.map (·.strike)
    match findClosestDelta puts_sorted TARGET_DELTA_PUT_SHORT with
    | none => { result with reason := "Could not find put option near 55 delta." }
    | some short_put =>
      let short_strike := short_put.strike
      let short_idx := strikes.findIdx (fun s => decide (s = short_strike))
      if strikes.length ≤ short_idx + 1 then
        { result with reason := "No strike available above short strike." }
      else
        let long_upper_strike := strikes.getD (short_idx + 1) 0
        if short_idx < 2 then
          { result with reason := "Not enough strikes below short strike for wing." }
        else
          let long_lower_strike := strikes.getD (short_idx - 2) 0
          match findOptionByStrike puts_sorted long_upper_strike,
                findOptionByStrike puts_sorted long_lower_strike with
          | none, _ =>
            { result with reason := "Could not find put at the upper strike." }
          | some _, none =>
            { result with reason := "Could not find put at the lower strike." }
          | some long_upper, some long_lower =>
            let short_price := midPrice short_put
            let long_upper_price := midPrice long_upper
            let long_lower_price := midPrice long_lower
            let net_premium := 2 * short_price - long_upper_price - long_lower_price
            let upper_spread_width := long_upper_strike - short_strike
            let max_loss_upper := upper_spread_width - net_premium
            { result with
              legs :=
                [mkLeg "SELL" 2 "put" short_strike short_price short_put.delta,
                 mkLeg "BUY" 1 "put" long_upper_strike long_upper_price long_upper.delta,
                 mkLeg "BUY" 1 "put" long_lower_strike long_lower_price long_lower.delta],
              net_premium := round4 net_premium,
              max_loss := some (if 0 < max_loss_upper then round4 max_loss_upper else 0),
              valid := true,
              reason := "PUT credit BWB built." }

/-- `_build_call_debit_bwb` from `bwb_builder.py`: sell 2 calls at the
strike whose `|delta|` is closest to 0.45, buy 1 call two strikes above
(the wing) and 1 call one strike below. -/
def buildCallDebitBWB (option_chain : List OptionRec) (result : BWBResult) :
    BWBResult :=
  let calls := filterOptions option_chain "call"
  if calls = [] then { result with reason := "No call options found in chain." }
  else
    let calls_sorted := sortByStrike calls
    let strikes := calls_sorted.map (·.strike)
    match findClosestDelta calls_sorted TARGET_DELTA_CALL_SHORT with
    | none => { result with reason := "Could not find call option near 45 delta." }
    | some short_call =>
      let short_strike := short_call.strike
      let short_idx := strikes.findIdx (fun s => decide (s = short_strike))
      if strikes.length ≤ short_idx + 2 then
        { result with reason := "Not enough strikes above short strike for wing." }
      else
        let long_upper_strike := strikes.getD (short_idx + 2) 0
        if short_idx < 1 then
          { result with reason := "No strike available below short strike." }
        else
          let long_lower_strike := strikes.getD (short_idx - 1) 0
          match findOptionByStrike calls_sorted long_upper_strike,
                findOptionByStrike calls_sorted long_lower_strike with
          | none, _ =>
            { result with reason := "Could not find call at the upper strike." }
          | some _, none =>
            { result with reason := "Could not find call at the lower strike." }
          | some long_upper, some long_lower =>
            let short_price := midPrice short_call
            let long_upper_price := midPrice long_upper
            let long_lower_price := midPrice long_lower
            let net_premium := 2 * short_price - long_upper_price - long_lower_price
            let lower_spread_width := short_strike - long_lower_strike
            let max_loss_lower := lower_spread_width - net_premium
            { result with
              legs :=
                [mkLeg "SELL" 2 "call" short_strike short_price short_call.delta,
                 mkLeg "BUY" 1 "call" long_upper_strike long_upper_price long_upper.delta,
                 mkLeg "BUY" 1 "call" long_lower_strike long_lower_price long_lower.delta],
              net_premium := round4 net_premium,
              max_loss := some (if 0 < max_loss_lower then round4 max_loss_lower else 0),
              valid := true,
              reason := "CALL debit BWB built." }

/-- `build_bwb_structure` from `bwb_builder.py`. -/
def build_bwb_structure (option_chain : List OptionRec)
    (structure_type : String) : BWBResult :=
  let result : BWBResult :=
    { structure_type := structure_type, legs := [], net_premium := 0,
      max_loss := none, valid := false, reason := "" }
  if option_chain = [] then
    { result with reason := "Invalid or empty option chain provided." }
  else if structure_type = "PUT_CREDIT_BWB" then
    buildPutCreditBWB option_chain result
  else if structure_type = "CALL_DEBIT_BWB" then
    buildCallDebitBWB option_chain result
  else
    { result with reason := "Unknown structure type." }

/-- The PUT-credit worked scenario chain from the spec. -/
def c6Chain : List OptionRec :=
  [⟨"put", 5800, some (-(70/100)), 45, 46⟩,
   ⟨"put", 5825, some (-(65/100)), 38, 39⟩,
   ⟨"put", 5850, some (-(60/100)), 32, 33⟩,
   ⟨"put", 5875, some (-(55/100)), 26, 27⟩,
   ⟨"put", 5900, some (-(50/100)), 21, 22⟩,
   ⟨"put", 5925, some (-(45/100)), 17, 18⟩,
   ⟨"put", 5950, some (-(40/100)), 13, 14⟩]

/-- Claim C6: on the worked PUT-credit scenario the builder returns a
valid structure shorting 5875 twice, buying 5900 and the 5825 wing,
with net premium −7 and max loss 32. -/
theorem C6_worked_put_credit :
    build_bwb_structure c6Chain "PUT_CREDIT_BWB" =
      { structure_type := "PUT_CREDIT_BWB",
        legs :=
          [⟨"SELL", 2, "put", 5875, 53/2, some (-(55/100))⟩,
           ⟨"BUY", 1, "put", 5900, 43/2, some (-(1/2))⟩,
           ⟨"BUY", 1, "put", 5825, 77/2, some (-(65/100))⟩],
        net_premium := -7,
        max_loss := some 32,
        valid := true,
        reason := "PUT credit BWB built." } := by
  norm_num [build_bwb_structure, buildPutCreditBWB, c6Chain, filterOptions,
    sortByStrike, List.insertionSort, List.orderedInsert, strikeLE,
    findClosestDelta, fcdGo, TARGET_DELTA_PUT_SHORT, findOptionByStrike,
    midPrice, mkLeg, round4, roundEven, List.findIdx, List.findIdx.go,
    abs_of_nonneg, abs_of_nonpos]
  simp

theorem buildPutCreditBWB_shape (chain : List OptionRec) (res : BWBResult) :
    ((∃ r, r ≠ "" ∧ buildPutCreditBWB chain res = { res with reason := r }) ∨
      ((buildPutCreditBWB chain res).valid = true
        ∧ ∃ m, (buildPutCreditBWB chain res).max_loss = some m ∧ 0 ≤ m)) := by
  unfold buildPutCreditBWB
  dsimp only
  repeat' split
  all_goals
    first
      | exact Or.inl ⟨_, by decide, rfl⟩
      | (refine Or.inr ⟨rfl, _, rfl, ?_⟩
         first
           | exact le_refl 0
           | exact round4_nonneg _ (le_of_lt (by assumption)))

theorem buildCallDebitBWB_shape (chain : List OptionRec) (res : BWBResult) :
    ((∃ r, r ≠ "" ∧ buildCallDebitBWB chain res = { res with reason := r }) ∨
      ((buildCallDebitBWB chain res).valid = true
        ∧ ∃ m, (buildCallDebitBWB chain res).max_loss = some m ∧ 0 ≤ m)) := by
  unfold buildCallDebitBWB
  dsimp only
  repeat' split
  all_goals
    first
      | exact Or.inl ⟨_, by decide, rfl⟩
      | (refine Or.inr ⟨rfl, _, rfl, ?_⟩
         first
           | exact le_refl 0
           | exact round4_nonneg _ (le_of_lt (by assumption)))

/-- Claim C8: whenever `build_bwb_structure` reports a valid structure,
its max loss is present and non-negative (the spread-width-minus-premium
value is floored at 0 and rounding preserves the sign). -/
theorem C8_max_loss_nonneg (chain : List OptionRec) (stype : String)
    (h : (build_bwb_structure chain stype).valid = true) :
    ∃ m, (build_bwb_structure chain stype).max_loss = some m ∧ 0 ≤ m := by
  revert h
  unfold build_bwb_structure
  dsimp only
  split
  · intro h
    simp at h
  · split
    · rcases buildPutCreditBWB_shape chain
        { structure_type := stype, legs := [], net_premium := 0,
          max_loss := none, valid := false, reason := "" } with
        ⟨r, hr, heq⟩ | ⟨hv, m, hm, h0⟩
      · rw [heq]
        intro h
        simp at h
      · intro _
        exact ⟨m, hm, h0⟩
    · split
      · rcases buildCallDebitBWB_shape chain
          { structure_type := stype, legs := [], net_premium := 0,
            max_loss := none, valid := false, reason := "" } with
          ⟨r, hr, heq⟩ | ⟨hv, m, hm, h0⟩
        · rw [heq]
          intro h
          simp at h
        · intro _
          exact ⟨m, hm, h0⟩
      · intro h
        simp at h

/-- A minimal four-strike put chain on which the PUT-credit builder
succeeds. -/
def c8Chain : List OptionRec :=
  [⟨"put", 10, some (-(9/10)), 5, 5⟩,
   ⟨"put", 20, some (-(8/10)), 4, 4⟩,
   ⟨"put", 30, some (-(55/100)), 3, 3⟩,
   ⟨"put", 40, some (-(3/10)), 2, 2⟩]

/-- Witness for C8 at a concrete succeeding chain. -/
theorem C8_witness :
    ∃ m, (build_bwb_structure c8Chain "PUT_CREDIT_BWB").max_loss = some m
      ∧ 0 ≤ m :=
  C8_max_loss_nonneg c8Chain "PUT_CREDIT_BWB" (by
    norm_num [build_bwb_structure, buildPutCreditBWB, c8Chain, filterOptions,
      sortByStrike, List.insertionSort, List.orderedInsert, strikeLE,
      findClosestDelta, fcdGo, TARGET_DELTA_PUT_SHORT, findOptionByStrike,
      midPrice, mkLeg, List.findIdx, List.findIdx.go,
      abs_of_nonneg, abs_of_nonpos]
    simp)

/-- Claim C10: every invalid builder result keeps the initial zero
premium, absent max loss and empty legs, and carries a non-empty
reason. -/
theorem C10_invalid_result_shape (chain : List OptionRec) (stype : String)
    (h : (build_bwb_structure chain stype).valid = false) :
    (build_bwb_structure chain stype).net_premium = 0
    ∧ (build_bwb_structure chain stype).max_loss = none
    ∧ (build_bwb_structure chain stype).legs = []
    ∧ (build_bwb_structure chain stype).reason ≠ "" := by
  revert h
  unfold build_bwb_structure
  dsimp only
  split
  · intro _
    exact ⟨rfl, rfl, rfl, by dsimp only; decide⟩
  · split
    · rcases buildPutCreditBWB_shape chain
        { structure_type := stype, legs := [], net_premium := 0,
          max_loss := none, valid := false, reason := "" } with
        ⟨r, hr, heq⟩ | ⟨hv, m, hm, h0⟩
      · rw [heq]
        intro _
        exact ⟨rfl, rfl, rfl, hr⟩
      · intro h
        rw [hv] at h
        simp at h
    · split
      · rcases buildCallDebitBWB_shape chain
          { structure_type := stype, legs := [], net_premium := 0,
            max_loss := none, valid := false, reason := "" } with
          ⟨r, hr, heq⟩ | ⟨hv, m, hm, h0⟩
        · rw [heq]
          intro _
          exact ⟨rfl, rfl, rfl, hr⟩
        · intro h
          rw [hv] at h
          simp at h
      · intro _
        exact ⟨rfl, rfl, rfl, by dsimp only; decide⟩

/-- Witness for C10 at the empty chain. -/
theorem C10_witness :
    (build_bwb_structure [] "PUT_CREDIT_BWB").net_premium = 0
    ∧ (build_bwb_structure [] "PUT_CREDIT_BWB").max_loss = none
    ∧ (build_bwb_structure [] "PUT_CREDIT_BWB").legs = []
    ∧ (build_bwb_structure [] "PUT_CREDIT_BWB").reason ≠ "" :=
  C10_invalid_result_shape [] "PUT_CREDIT_BWB" rfl

/-! ### C5: the short-strike selection rule -/

/-- The `|abs(delta) - target|` distance of one record, absent when the
record has no delta. -/
def deltaDist (target : ℚ) (o : OptionRec) : Option ℚ :=
  o.delta.map (fun d => |(|d|) - target|)

/-- `distLeAll t d l` holds when `d` is at most the delta distance of
every record of `l` that has a delta. -/
def distLeAll (t : ℚ) (d : ℚ) (l : List OptionRec) : Bool :=
  l.all (fun o' =>
    match deltaDist t o' with
    | none => true
    | some d' => decide (d ≤ d'))

/-- Transcription of the specified selection rule: a record qualifies
when it has a delta and its distance to the target is minimal over the
whole list. -/
def isMinimalDist (l : List OptionRec) (t : ℚ) (o : OptionRec) : Bool :=
  match deltaDist t o with
  | none => false
  | some d => distLeAll t d l

/-- Transcription of the spec's words: the selected record is the first
record, in list order, whose delta distance to the target is minimal. -/
def specFirstClosest (l : List OptionRec) (t : ℚ) : Option OptionRec :=
  l.find? (isMinimalDist l t)

theorem find?_congr {α : Type} (p q : α → Bool) (l : List α)
    (h : ∀ a ∈ l, p a = q a) : l.find? p = l.find? q := by
  induction l with
  | nil => rfl
  | cons x xs ih =>
    have hpx : p x = q x := h x (List.mem_cons_self x xs)
    cases hqx : q x with
    | true =>
      rw [List.find?_cons_of_pos _ (by rw [hpx, hqx]),
        List.find?_cons_of_pos _ hqx]
    | false =>
      rw [List.find?_cons_of_neg _ (by rw [hpx, hqx]; simp),
        List.find?_cons_of_neg _ (by rw [hqx]; simp)]
      exact ih (fun a ha => h a (List.mem_cons_of_mem _ ha))

theorem distLeAll_cons (t d : ℚ) (x : OptionRec) (l : List OptionRec) :
    distLeAll t d (x :: l)
      = ((match deltaDist t x with
          | none => true
          | some dx => decide (d ≤ dx)) && distLeAll t d l) := by
  simp [distLeAll]

theorem isMinimalDist_cons_none (l : List OptionRec) (t : ℚ)
    (x : OptionRec) (hx : deltaDist t x = none) (o : OptionRec) :
    isMinimalDist (x :: l) t o = isMinimalDist l t o := by
  unfold isMinimalDist
  cases ho : deltaDist t o with
  | none => rfl
  | some d =>
    dsimp only
    rw [distLeAll_cons, hx]
    simp

theorem isMinimalDist_drop_mid_none (t : ℚ) (c o : OptionRec)
    (rest : List OptionRec) (ho : deltaDist t o = none) (x : OptionRec) :
    isMinimalDist (c :: o :: rest) t x = isMinimalDist (c :: rest) t x := by
  unfold isMinimalDist
  cases hx : deltaDist t x with
  | none => rfl
  | some dx =>
    dsimp only
    simp only [distLeAll_cons, ho, Bool.true_and]

theorem isMinimalDist_drop_head (t : ℚ) (c o : OptionRec)
    (rest : List OptionRec) (d e : ℚ)
    (hc : deltaDist t c = some d) (ho : deltaDist t o = some e)
    (hde : e < d) (x : OptionRec) :
    isMinimalDist (c :: o :: rest) t x = isMinimalDist (o :: rest) t x := by
  unfold isMinimalDist
  cases hx : deltaDist t x with
  | none => rfl
  | some dx =>
    dsimp only
    simp only [distLeAll_cons, hc, ho]
    by_cases h1 : dx ≤ e
    · have h2 : dx ≤ d := by linarith
      simp [h1, h2]
    · simp [h1]

theorem isMinimalDist_drop_mid (t : ℚ) (c o : OptionRec)
    (rest : List OptionRec) (d e : ℚ)
    (hc : deltaDist t c = some d) (ho : deltaDist t o = some e)
    (hde : d ≤ e) (x : OptionRec) :
    isMinimalDist (c :: o :: rest) t x = isMinimalDist (c :: rest) t x := by
  unfold isMinimalDist
  cases hx : deltaDist t x with
  | none => rfl
  | some dx =>
    dsimp only
    simp only [distLeAll_cons, hc, ho]
    by_cases h1 : dx ≤ d
    · have h2 : dx ≤ e := by linarith
      simp [h1, h2]
    · simp [h1]

theorem fcdGo_eq_find? (t : ℚ) (l : List OptionRec) :
    ∀ (c : OptionRec) (d : ℚ), deltaDist t c = some d →
      (fcdGo t l (some (c, d))).map Prod.fst
        = (c :: l).find? (isMinimalDist (c :: l) t) := by
  induction l with
  | nil =>
    intro c d hc
    have hmin : isMinimalDist [c] t c = true := by
      unfold isMinimalDist
      rw [hc]
      dsimp only
      rw [distLeAll_cons, hc]
      simp [distLeAll]
    rw [List.find?_cons_of_pos _ hmin]
    rfl
  | cons o rest ih =>
    intro c d hc
    cases ho : o.delta with
    | none =>
      have hdo : deltaDist t o = none := by simp [deltaDist, ho]
      have hL : fcdGo t (o :: rest) (some (c, d)) = fcdGo t rest (some (c, d)) := by
        simp [fcdGo, ho]
      rw [hL, ih c d hc]
      rw [find?_congr (isMinimalDist (c :: o :: rest) t) (isMinimalDist (c :: rest) t) _
        (fun a _ => isMinimalDist_drop_mid_none t c o rest hdo a)]
      by_cases hqc : isMinimalDist (c :: rest) t c = true
      · rw [List.find?_cons_of_pos _ hqc, List.find?_cons_of_pos _ hqc]
      · have hqo : ¬isMinimalDist (c :: rest) t o = true := by
          unfold isMinimalDist
          rw [hdo]
          simp
        have h1 : (c :: rest).find? (isMinimalDist (c :: rest) t)
            = rest.find? (isMinimalDist (c :: rest) t) :=
          List.find?_cons_of_neg _ hqc
        have h2 : (c :: o :: rest).find? (isMinimalDist (c :: rest) t)
            = (o :: rest).find? (isMinimalDist (c :: rest) t) :=
          List.find?_cons_of_neg _ hqc
        have h3 : (o :: rest).find? (isMinimalDist (c :: rest) t)
            = rest.find? (isMinimalDist (c :: rest) t) :=
          List.find?_cons_of_neg _ hqo
        rw [h1, h2, h3]
    | some d0 =>
      have hdo : deltaDist t o = some (|(|d0|) - t|) := by simp [deltaDist, ho]
      by_cases hlt : |(|d0|) - t| < d
      · have hL : fcdGo t (o :: rest) (some (c, d))
            = fcdGo t rest (some (o, |(|d0|) - t|)) := by
          simp [fcdGo, ho, hlt]
        rw [hL, ih o _ hdo]
        rw [find?_congr (isMinimalDist (c :: o :: rest) t) (isMinimalDist (o :: rest) t) _
          (fun a _ => isMinimalDist_drop_head t c o rest d _ hc hdo hlt a)]
        have hqc : ¬isMinimalDist (o :: rest) t c = true := by
          unfold isMinimalDist
          rw [hc]
          dsimp only
          rw [distLeAll_cons, hdo]
          simp
          intro hcon
          linarith
        rw [List.find?_cons_of_neg _ hqc]
      · push_neg at hlt
        have hL : fcdGo t (o :: rest) (some (c, d)) = fcdGo t rest (some (c, d)) := by
          simp [fcdGo, ho, not_lt.mpr hlt]
        rw [hL, ih c d hc]
        rw [find?_congr (isMinimalDist (c :: o :: rest) t) (isMinimalDist (c :: rest) t) _
          (fun a _ => isMinimalDist_drop_mid t c o rest d _ hc hdo hlt a)]
        by_cases hqc : isMinimalDist (c :: rest) t c = true
        · rw [List.find?_cons_of_pos _ hqc, List.find?_cons_of_pos _ hqc]
        · have hqo : ¬isMinimalDist (c :: rest) t o = true := by
            intro hqoeq
            apply hqc
            unfold isMinimalDist at hqoeq ⊢
            rw [hdo] at hqoeq
            rw [hc]
            dsimp only at hqoeq ⊢
            rw [distLeAll_cons, hc] at hqoeq
            rw [distLeAll_cons, hc]
            simp at hqoeq
            obtain ⟨hed, hrest⟩ := hqoeq
            have heq : |(|d0|) - t| = d := le_antisymm hed hlt
            rw [heq] at hrest
            simp [hrest]
          have h1 : (c :: rest).find? (isMinimalDist (c :: rest) t)
              = rest.find? (isMinimalDist (c :: rest) t) :=
            List.find?_cons_of_neg _ hqc
          have h2 : (c :: o :: rest).find? (isMinimalDist (c :: rest) t)
              = (o :: rest).find? (isMinimalDist (c :: rest) t) :=
            List.find?_cons_of_neg _ hqc
          have h3 : (o :: rest).find? (isMinimalDist (c :: rest) t)
              = rest.find? (isMinimalDist (c :: rest) t) :=
            List.find?_cons_of_neg _ hqo
          rw [h1, h2, h3]

theorem findClosestDelta_eq_spec (l : List OptionRec) (t : ℚ) :
    findClosestDelta l t = specFirstClosest l t := by
  induction l with
  | nil => rfl
  | cons o rest ih =>
    unfold findClosestDelta specFirstClosest
    cases ho : o.delta with
    | none =>
      have hdo : deltaDist t o = none := by simp [deltaDist, ho]
      have hL : fcdGo t (o :: rest) none = fcdGo t rest none := by
        simp [fcdGo, ho]
      rw [hL]
      rw [find?_congr (isMinimalDist (o :: rest) t) (isMinimalDist rest t) _
        (fun a _ => isMinimalDist_cons_none rest t o hdo a)]
      rw [List.find?_cons_of_neg _ (by
        unfold isMinimalDist
        rw [hdo]
        simp)]
      exact ih
    | some d0 =>
      have hdo : deltaDist t o = some (|(|d0|) - t|) := by simp [deltaDist, ho]
      have hL : fcdGo t (o :: rest) none
          = fcdGo t rest (some (o, |(|d0|) - t|)) := by
        simp [fcdGo, ho]
      rw [hL]
      exact fcdGo_eq_find? t rest o _ hdo

theorem find?_min_strike_of_sorted (p : OptionRec → Bool) :
    ∀ (l : List OptionRec), List.Pairwise strikeLE l →
      ∀ r, l.find? p = some r → ∀ o ∈ l, p o = true → r.strike ≤ o.strike := by
  intro l
  induction l with
  | nil =>
    intro _ r h
    simp at h
  | cons x xs ih =>
    intro hpw r hfind o ho hpo
    rcases List.pairwise_cons.mp hpw with ⟨hx, hxs⟩
    by_cases hpx : p x = true
    · rw [List.find?_cons_of_pos _ hpx] at hfind
      injection hfind with hh
      subst hh
      cases List.mem_cons.mp ho with
      | inl h => subst h; exact le_refl _
      | inr h => exact hx o h
    · rw [List.find?_cons_of_neg _ hpx] at hfind
      cases List.mem_cons.mp ho with
      | inl h => subst h; exact absurd hpo hpx
      | inr h => exact ih hxs r hfind o h hpo

/-- Claim C5: the short-strike search of the PUT-credit builder — the
fold `findClosestDelta` applied to the ascending-strike sort of the
chain's puts with target 0.55 — returns exactly the first record, in
ascending-strike order, whose `|delta|` distance to 0.55 is minimal
(`specFirstClosest`), and among all records tied at that minimal
distance the selected one has the lowest strike. -/
theorem C5_short_strike_selection (chain : List OptionRec) :
    (findClosestDelta (sortByStrike (filterOptions chain "put")) TARGET_DELTA_PUT_SHORT
      = specFirstClosest (sortByStrike (filterOptions chain "put")) TARGET_DELTA_PUT_SHORT)
    ∧ (∀ r, findClosestDelta (sortByStrike (filterOptions chain "put"))
          TARGET_DELTA_PUT_SHORT = some r →
        ∀ o ∈ sortByStrike (filterOptions chain "put"),
          deltaDist TARGET_DELTA_PUT_SHORT o = deltaDist TARGET_DELTA_PUT_SHORT r →
          r.strike ≤ o.strike) := by
  constructor
  · exact findClosestDelta_eq_spec _ _
  · intro r hr o ho hdist
    have hspec : specFirstClosest (sortByStrike (filterOptions chain "put"))
        TARGET_DELTA_PUT_SHORT = some r := by
      rw [← findClosestDelta_eq_spec]
      exact hr
    have hpr : isMinimalDist (sortByStrike (filterOptions chain "put"))
        TARGET_DELTA_PUT_SHORT r = true :=
      List.find?_some hspec
    have hpo : isMinimalDist (sortByStrike (filterOptions chain "put"))
        TARGET_DELTA_PUT_SHORT o = true := by
      unfold isMinimalDist at hpr ⊢
      rw [hdist]
      cases hdr : deltaDist TARGET_DELTA_PUT_SHORT r with
      | none =>
        rw [hdr] at hpr
        simp at hpr
      | some dr =>
        rw [hdr] at hpr
        exact hpr
    have hsorted : List.Pairwise strikeLE
        (sortByStrike (filterOptions chain "put")) :=
      List.sorted_insertionSort strikeLE _
    exact find?_min_strike_of_sorted _ _ hsorted r hspec o ho hpo

/-- Witness for C5 at a one-put chain: the selected record is tied with
itself and has minimal strike. -/
theorem C5_witness :
    (⟨"put", 50, some (-(1/2)), 1, 2⟩ : OptionRec).strike
      ≤ (⟨"put", 50, some (-(1/2)), 1, 2⟩ : OptionRec).strike :=
  (C5_short_strike_selection [⟨"put", 50, some (-(1/2)), 1, 2⟩]).2
    ⟨"put", 50, some (-(1/2)), 1, 2⟩ rfl
    ⟨"put", 50, some (-(1/2)), 1, 2⟩
    (by simp [sortByStrike, filterOptions, List.insertionSort])
    rfl

/-! ## Backtest aggregator (`theta_guard/backtest/evaluator.py`) -/

/-- One weekly outcome record as consumed by `evaluate_backtest`. -/
structure WeeklyRecord where
  week : String
  decision : String
  net_premium : Option ℚ
  max_loss : Option ℚ
  outcome : String
  pnl : ℚ
deriving DecidableEq

/-- The metrics record returned by `evaluate_backtest`. -/
structure BacktestMetrics where
  total_trades : ℕ
  wins : ℕ
  losses : ℕ
  win_rate : ℚ
  average_win : ℚ
  average_loss : ℚ
  expectancy : ℚ
  cumulative_pnl : ℚ
  max_drawdown : ℚ
  return_on_risk : ℚ
deriving DecidableEq

/-- `_empty_result` from `evaluator.py`. -/
def emptyBacktestResult : BacktestMetrics := ⟨0, 0, 0, 0, 0, 0, 0, 0, 0, 0⟩

/-- `_filter_traded_weeks` from `evaluator.py`: decision is
"TRADE ALLOWED" and outcome is not "SKIPPED". -/
def filterTradedWeeks (weekly_results : List WeeklyRecord) : List WeeklyRecord :=
  weekly_results.filter
    (fun w => w.decision == "TRADE ALLOWED" && !(w.outcome == "SKIPPED"))

/-- `_compute_max_drawdown` from `evaluator.py`: fold carrying
(cumulative, peak, max drawdown so far), all initialised to 0. -/
def computeMaxDrawdown (pnls : List ℚ) : ℚ :=
  (pnls.foldl
    (fun (st : ℚ × ℚ × ℚ) pnl =>
      let cumulative := st.1 + pnl
      let peak := if st.2.1 < cumulative then cumulative else st.2.1
      let drawdown := peak - cumulative
      let max_dd := if st.2.2 < drawdown then drawdown else st.2.2
      (cumulative, peak, max_dd))
    (0, 0, 0)).2.2

/-- `evaluate_backtest` from `evaluator.py`. -/
def evaluate_backtest (weekly_results : List WeeklyRecord) : BacktestMetrics :=
  if weekly_results = [] then emptyBacktestResult
  else if filterTradedWeeks weekly_results = [] then emptyBacktestResult
  else
    let traded_weeks := filterTradedWeeks weekly_results
    let wins := traded_weeks.filter (fun w => w.outcome == "WIN")
    let losses := traded_weeks.filter (fun w => w.outcome == "LOSS")
    let total_trades := traded_weeks.length
    let win_pnls := wins.map (·.pnl)
    let loss_pnls := losses.map (·.pnl)
    let all_pnls := traded_weeks.map (·.pnl)
    let max_losses := traded_weeks.filterMap (·.max_loss)
    let win_rate : ℚ :=
      if 0 < total_trades then (wins.length : ℚ) / (total_trades : ℚ) else 0
    let average_win := if win_pnls = [] then 0 else win_pnls.sum / (win_pnls.length : ℚ)
    let average_loss := if loss_pnls = [] then 0 else loss_pnls.sum / (loss_pnls.length : ℚ)
    let expectancy := if all_pnls = [] then 0 else all_pnls.sum / (all_pnls.length : ℚ)
    let cumulative_pnl := all_pnls.sum
    let max_drawdown := computeMaxDrawdown all_pnls
    let avg_max_loss :=
      if max_losses = [] then 0 else max_losses.sum / (max_losses.length : ℚ)
    let return_on_risk := if 0 < avg_max_loss then expectancy / avg_max_loss else 0
    { total_trades := total_trades, wins := wins.length, losses := losses.length,
      win_rate := round4 win_rate, average_win := round4 average_win,
      average_loss := round4 average_loss, expectancy := round4 expectancy,
      cumulative_pnl := round4 cumulative_pnl, max_drawdown := round4 max_drawdown,
      return_on_risk := round4 return_on_risk }

/-- Step 2 of the spec: expectancy is the mean pnl over traded weeks. -/
def expectancySpec (rs : List WeeklyRecord) : ℚ :=
  ((filterTradedWeeks rs).map (·.pnl)).sum
    / (((filterTradedWeeks rs).map (·.pnl)).length : ℚ)

/-- The average the code actually divides by: the mean of `max_loss`
over traded weeks that report a known `max_loss` of any sign, 0 when
none do. -/
def averageKnownMaxLoss (rs : List WeeklyRecord) : ℚ :=
  if (filterTradedWeeks rs).filterMap (·.max_loss) = [] then 0
  else ((filterTradedWeeks rs).filterMap (·.max_loss)).sum
    / ((((filterTradedWeeks rs).filterMap (·.max_loss)).length : ℚ))

/-- The claim's formula: divide the expectancy by the mean of `max_loss`
over traded weeks with a known positive `max_loss`, 0 when no such week
exists. -/
def claimReturnOnRisk (rs : List WeeklyRecord) : ℚ :=
  if ((filterTradedWeeks rs).filterMap (·.max_loss)).filter (fun m => decide (0 < m)) = []
  then 0
  else expectancySpec rs
    / ((((filterTradedWeeks rs).filterMap (·.max_loss)).filter
          (fun m => decide (0 < m))).sum
        / (((((filterTradedWeeks rs).filterMap (·.max_loss)).filter
          (fun m => decide (0 < m))).length : ℚ)))

theorem evaluate_backtest_ror (rs : List WeeklyRecord)
    (h : filterTradedWeeks rs ≠ []) :
    (evaluate_backtest rs).return_on_risk
      = if 0 < averageKnownMaxLoss rs
        then round4 (expectancySpec rs / averageKnownMaxLoss rs)
        else 0 := by
  have hrs : rs ≠ [] := by
    intro hcon
    apply h
    rw [hcon]
    rfl
  have hmap : (filterTradedWeeks rs).map (fun w => w.pnl) ≠ [] := by
    simpa using h
  unfold evaluate_backtest
  rw [if_neg hrs, if_neg h]
  dsimp only
  rw [if_neg hmap]
  have hA : averageKnownMaxLoss rs
      = (if (filterTradedWeeks rs).filterMap (fun w => w.max_loss) = [] then 0
         else ((filterTradedWeeks rs).filterMap (fun w => w.max_loss)).sum
           / ((((filterTradedWeeks rs).filterMap (fun w => w.max_loss)).length : ℚ))) :=
    rfl
  have hE : expectancySpec rs
      = ((filterTradedWeeks rs).map (fun w => w.pnl)).sum
          / (((filterTradedWeeks rs).map (fun w => w.pnl)).length : ℚ) := rfl
  rw [← hA, ← hE]
  by_cases h0 : 0 < averageKnownMaxLoss rs
  · rw [if_pos h0, if_pos h0]
  · rw [if_neg h0, if_neg h0]
    exact round4_zero

/-- Two traded weeks, one with a negative reported max loss. -/
def c1CexRecords : List WeeklyRecord :=
  [⟨"2024-01-08", "TRADE ALLOWED", none, some 20, "WIN", 5⟩,
   ⟨"2024-01-15", "TRADE ALLOWED", none, some (-10), "WIN", 5⟩]

/-- Claim C1 as stated is false: on these records the code averages all
known max losses (20 and −10, mean 5) and returns 5/5 = 1, whereas the
claim's mean over known positive max losses (just 20) would give
5/20 = 1/4. -/
theorem C1_counterexample :
    (evaluate_backtest c1CexRecords).return_on_risk = 1
    ∧ claimReturnOnRisk c1CexRecords = 1/4
    ∧ (1 : ℚ) ≠ 1/4 := by
  have hft : filterTradedWeeks c1CexRecords = c1CexRecords := by
    simp [filterTradedWeeks, c1CexRecords, List.filter_cons]
  have hne : filterTradedWeeks c1CexRecords ≠ [] := by
    rw [hft]
    simp [c1CexRecords]
  have hE : expectancySpec c1CexRecords = 5 := by
    rw [expectancySpec, hft]
    norm_num [c1CexRecords]
  have hA : averageKnownMaxLoss c1CexRecords = 5 := by
    have hm : (filterTradedWeeks c1CexRecords).filterMap (fun w => w.max_loss)
        = [20, -10] := by
      rw [hft]
      norm_num [c1CexRecords, List.filterMap_cons]
    rw [averageKnownMaxLoss, hm, if_neg (List.cons_ne_nil _ _)]
    norm_num
  refine ⟨?_, ?_, by norm_num⟩
  · rw [evaluate_backtest_ror c1CexRecords hne, hA, hE, if_pos (by norm_num)]
    rw [round4_eq_of_mul_eq_intCast _ 10000 (by norm_num)]
    norm_num
  · have hm : ((filterTradedWeeks c1CexRecords).filterMap (fun w => w.max_loss)).filter
        (fun m => decide (0 < m)) = [20] := by
      rw [hft]
      norm_num [c1CexRecords, List.filterMap_cons, List.filter_cons]
    rw [claimReturnOnRisk, hm, if_neg (List.cons_ne_nil _ _), hE]
    norm_num

/-- Claim C1 (amended): for records with at least one traded week the
returned `return_on_risk` equals the (4-decimal-rounded) quotient of
the expectancy by the mean of `max_loss` over traded weeks that report
a known `max_loss` of any sign — not only positive ones — and is 0
whenever that mean is not positive. -/
theorem C1_return_on_risk (rs : List WeeklyRecord)
    (h : filterTradedWeeks rs ≠ []) :
    (evaluate_backtest rs).return_on_risk
      = if 0 < averageKnownMaxLoss rs
        then round4 (expectancySpec rs / averageKnownMaxLoss rs)
        else 0 :=
  evaluate_backtest_ror rs h

/-- A single traded week with a known positive max loss. -/
def c1WitnessRecords : List WeeklyRecord :=
  [⟨"2024-01-08", "TRADE ALLOWED", none, some 10, "WIN", 2⟩]

/-- Witness for C1 at a concrete one-record input. -/
theorem C1_witness :
    (evaluate_backtest c1WitnessRecords).return_on_risk
      = if 0 < averageKnownMaxLoss c1WitnessRecords
        then round4 (expectancySpec c1WitnessRecords / averageKnownMaxLoss c1WitnessRecords)
        else 0 :=
  C1_return_on_risk c1WitnessRecords
    (by simp [filterTradedWeeks, c1WitnessRecords, List.filter_cons])

theorem length_filter_add_length_filter_le {α : Type} (l : List α)
    (p q : α → Bool) (hpq : ∀ x, ¬(p x = true ∧ q x = true)) :
    (l.filter p).length + (l.filter q).length ≤ l.length := by
  induction l with
  | nil => simp
  | cons x xs ih =>
    simp only [List.filter_cons]
    by_cases hp : p x = true
    · have hq : ¬q x = true := fun hq => hpq x ⟨hp, hq⟩
      simp [hp, hq]
      omega
    · by_cases hq : q x = true
      · simp [hp, hq]
        omega
      · simp [hp, hq]
        omega

/-- A traded week whose outcome is none of WIN, LOSS, SKIPPED. -/
def c9Weird : WeeklyRecord :=
  ⟨"2024-01-08", "TRADE ALLOWED", none, none, "EXPIRED", 1⟩

/-- Claim C9: a record with decision TRADE ALLOWED and an outcome other
than WIN/LOSS/SKIPPED still counts as a traded week — it enters
`total_trades`, the expectancy and cumulative pnl sums and the drawdown
walk — but neither `wins` nor `losses`, so `wins + losses` can be
strictly below `total_trades`, as the concrete record `c9Weird`
shows. -/
theorem C9_traded_week_counting :
    (∀ rs : List WeeklyRecord,
      (evaluate_backtest rs).total_trades = (filterTradedWeeks rs).length
      ∧ (evaluate_backtest rs).wins
          = ((filterTradedWeeks rs).filter (fun w => w.outcome == "WIN")).length
      ∧ (evaluate_backtest rs).losses
          = ((filterTradedWeeks rs).filter (fun w => w.outcome == "LOSS")).length
      ∧ (evaluate_backtest rs).expectancy
          = round4 (((filterTradedWeeks rs).map (fun w => w.pnl)).sum
              / (((filterTradedWeeks rs).map (fun w => w.pnl)).length : ℚ))
      ∧ (evaluate_backtest rs).cumulative_pnl
          = round4 (((filterTradedWeeks rs).map (fun w => w.pnl)).sum)
      ∧ (evaluate_backtest rs).max_drawdown
          = round4 (computeMaxDrawdown ((filterTradedWeeks rs).map (fun w => w.pnl)))
      ∧ (evaluate_backtest rs).wins + (evaluate_backtest rs).losses
          ≤ (evaluate_backtest rs).total_trades)
    ∧ ((evaluate_backtest [c9Weird]).wins + (evaluate_backtest [c9Weird]).losses
        < (evaluate_backtest [c9Weird]).total_trades) := by
  constructor
  · intro rs
    by_cases h1 : rs = []
    · subst h1
      simp [evaluate_backtest, filterTradedWeeks, emptyBacktestResult,
        computeMaxDrawdown, round4_zero]
    · by_cases h2 : filterTradedWeeks rs = []
      · simp [evaluate_backtest, h1, h2, emptyBacktestResult,
          computeMaxDrawdown, round4_zero]
      · have hmap : (filterTradedWeeks rs).map (fun w => w.pnl) ≠ [] := by
          simpa using h2
        unfold evaluate_backtest
        rw [if_neg h1, if_neg h2]
        dsimp only
        rw [if_neg hmap]
        refine ⟨rfl, rfl, rfl, rfl, rfl, rfl, ?_⟩
        refine length_filter_add_length_filter_le _ _ _ (fun x hx => ?_)
        obtain ⟨hw, hl⟩ := hx
        simp at hw hl
        rw [hw] at hl
        exact absurd hl (by decide)
  · decide

/-! ## Holiday gate (`theta_guard/calendar/holiday_gate.py`) -/

/-- Dates are epoch day numbers; day 0 (1970-01-01) was a Thursday.
`weekday` follows Python's `date.weekday()` convention (Monday = 0). -/
def weekday (d : ℕ) : ℕ := (d + 3) % 7

/-- Model of the external collaborators of `is_trade_week`:
`calendar_ok` is whether `mcal.get_calendar("NYSE")` succeeds, and
`schedule start end` either raises (`Except.error`), yields `None`
(`Except.ok none`) or yields the trading days within the range. -/
structure CalendarWorld where
  calendar_ok : Bool
  schedule : ℕ → ℕ → Except Unit (Option (List ℕ))

/-- `is_trade_week` from `holiday_gate.py`, with `datetime.strptime`
(the `parse` argument) and the market calendar supplied as explicit
collaborator parameters. -/
def is_trade_week (parse : String → Option ℕ) (world : CalendarWorld)
    (monday_date : String) : HolidayResult :=
  let base : HolidayResult :=
    { is_trade_week := false, monday_trading_day := false,
      friday_trading_day := false, reason := "" }
  match parse monday_date with
  | none => { base with reason := "Invalid date format. Expected YYYY-MM-DD." }
  | some monday =>
    if weekday monday ≠ 0 then { base with reason := "Date is not a Monday." }
    else
      if ¬world.calendar_ok then
        { base with reason := "Failed to load NYSE calendar. Defaulting to NO TRADE." }
      else
        match world.schedule monday (monday + 4) with
        | Except.error _ =>
          { base with reason := "Failed to retrieve market schedule. Defaulting to NO TRADE." }
        | Except.ok none =>
          { base with reason := "No trading days found in the specified week." }
        | Except.ok (some trading_dates) =>
          if trading_dates = [] then
            { base with reason := "No trading days found in the specified week." }
          else
            let monday_is_trading_day := decide (monday ∈ trading_dates)
            let friday_is_trading_day := decide (monday + 4 ∈ trading_dates)
            if !monday_is_trading_day && !friday_is_trading_day then
              { is_trade_week := false,
                monday_trading_day := monday_is_trading_day,
                friday_trading_day := friday_is_trading_day,
                reason := "HARD BLOCK: Both Monday and Friday are market holidays." }
            else if !monday_is_trading_day then
              { is_trade_week := false,
                monday_trading_day := monday_is_trading_day,
                friday_trading_day := friday_is_trading_day,
                reason := "HARD BLOCK: Monday is a market holiday." }
            else if !friday_is_trading_day then
              { is_trade_week := false,
                monday_trading_day := monday_is_trading_day,
                friday_trading_day := friday_is_trading_day,
                reason := "HARD BLOCK: Friday is a market holiday." }
            else
              { is_trade_week := true,
                monday_trading_day := monday_is_trading_day,
                friday_trading_day := friday_is_trading_day,
                reason := "Trade week allowed: Monday and Friday are both trading days." }

/-- Claim C7: `is_trade_week` is total (the embedding returns a record
on every input) and fail-closed: the reason string is never empty; when
the date parses to a Monday and the calendar yields a non-empty
schedule, the verdict is exactly "Monday is a trading day AND
Monday + 4 is a trading day"; and every failure — unparseable date,
non-Monday date, calendar unavailable, schedule error, absent or empty
schedule — yields `is_trade_week = false`. -/
theorem C7_holiday_gate (parse : String → Option ℕ) (world : CalendarWorld)
    (s : String) :
    ((is_trade_week parse world s).reason ≠ "")
    ∧ (∀ d dates, parse s = some d → weekday d = 0 →
        world.calendar_ok = true →
        world.schedule d (d + 4) = Except.ok (some dates) → dates ≠ [] →
        (is_trade_week parse world s).is_trade_week
          = (decide (d ∈ dates) && decide (d + 4 ∈ dates)))
    ∧ ((parse s = none
        ∨ (∃ d, parse s = some d ∧ weekday d ≠ 0)
        ∨ (∃ d, parse s = some d ∧ world.calendar_ok = false)
        ∨ (∃ d, parse s = some d ∧ world.schedule d (d + 4) = Except.error ())
        ∨ (∃ d, parse s = some d ∧ world.schedule d (d + 4) = Except.ok none)
        ∨ (∃ d, parse s = some d ∧ world.schedule d (d + 4) = Except.ok (some [])))
      → (is_trade_week parse world s).is_trade_week = false) := by
  refine ⟨?_, ?_, ?_⟩
  · unfold is_trade_week
    cases parse s with
    | none =>
      dsimp only
      decide
    | some d =>
      dsimp only
      repeat' split
      all_goals simp
  · intro d dates hpd hw hcal hsch hne
    unfold is_trade_week
    rw [hpd]
    dsimp only
    rw [if_neg (by simp [hw]), if_neg (by simp [hcal]), hsch]
    dsimp only
    rw [if_neg hne]
    cases hmt : decide (d ∈ dates) <;> cases hft : decide (d + 4 ∈ dates) <;>
      simp [hmt, hft]
  · intro hfail
    unfold is_trade_week
    cases hp : parse s with
    | none => rfl
    | some d =>
      dsimp only
      by_cases hw : weekday d ≠ 0
      · rw [if_pos hw]
      · rw [if_neg hw]
        push_neg at hw
        cases hcal : world.calendar_ok with
        | false => rw [if_pos (by simp [hcal])]
        | true =>
          rw [if_neg (by simp [hcal])]
          cases hsch : world.schedule d (d + 4) with
          | error u => rfl
          | ok v =>
            cases v with
            | none => rfl
            | some dates =>
              dsimp only
              by_cases hne : dates = []
              · rw [if_pos hne]
              · rw [if_neg hne]
                exfalso
                rcases hfail with h | ⟨d', hd', hw'⟩ | ⟨d', hd', hc'⟩
                  | ⟨d', hd', hs'⟩ | ⟨d', hd', hs'⟩ | ⟨d', hd', hs'⟩
                · rw [hp] at h
                  exact Option.noConfusion h
                · rw [hp] at hd'
                  injection hd' with hdd
                  subst hdd
                  exact hw' hw
                · rw [hp] at hd'
                  injection hd' with hdd
                  subst hdd
                  rw [hcal] at hc'
                  exact Bool.noConfusion hc'
                · rw [hp] at hd'
                  injection hd' with hdd
                  subst hdd
                  rw [hsch] at hs'
                  exact Except.noConfusion hs'
                · rw [hp] at hd'
                  injection hd' with hdd
                  subst hdd
                  rw [hsch] at hs'
                  injection hs' with hv
                  exact Option.noConfusion hv
                · rw [hp] at hd'
                  injection hd' with hdd
                  subst hdd
                  rw [hsch] at hs'
                  injection hs' with hv
                  injection hv with hl
                  exact hne hl

/-- A concrete parser knowing only 1970-01-05 (epoch day 4, a Monday). -/
def c7Parse : String → Option ℕ :=
  fun s => if s = "1970-01-05" then some 4 else none

/-- A concrete calendar world whose schedule lists days 4 and 8. -/
def c7World : CalendarWorld :=
  ⟨true, fun _ _ => Except.ok (some [4, 8])⟩

/-- Witness for C7: the success clause applied at 1970-01-05. -/
theorem C7_witness :
    (is_trade_week c7Parse c7World "1970-01-05").is_trade_week
      = (decide ((4 : ℕ) ∈ [4, 8]) && decide ((4 : ℕ) + 4 ∈ [4, 8])) :=
  (C7_holiday_gate c7Parse c7World "1970-01-05").2.1 4 [4, 8]
    (by simp [c7Parse]) (by decide) rfl rfl (by decide)
